import Mathlib

/-
Verification of the dataset download pipeline in
examples/download_sample_data.py: a shallow embedding of its data model
and operations, followed by theorems settling the specification claims.

Filesystem effects are modelled explicitly: a filesystem is an
association list from path strings to contents, the current working
directory is a field of an explicit process state, and the streamed HTTP
response body is a list of events (a data chunk or a raised error).
-/

namespace DownloadSampleData

/-! ## String and path helpers (str.endswith / str.replace / str.strip,
os.path.split / basename / dirname / join)

These are implemented over the character lists of strings so that every
definition evaluates by kernel reduction on concrete inputs. -/

/-- Models str.endswith. -/
def endsWithS (s t : String) : Bool :=
  t.data.isSuffixOf s.data

/-- Splits a character list at every occurrence of `sep`. -/
def splitChar (sep : Char) (l : List Char) : List (List Char) :=
  l.foldr (fun a acc =>
    if a == sep then [] :: acc
    else (a :: acc.headD []) :: acc.tail) [[]]

/-- Splits a path at every slash. -/
def splitSlash (s : String) : List String :=
  (splitChar '/' s.data).map (fun l => String.mk l)

/-- Tail of a path after the last slash: models os.path.split(p)[1],
also os.path.basename. -/
def basenameS (p : String) : String :=
  (splitSlash p).getLastD ""

/-- Joins character-list path segments with slashes. -/
def intercalateSlash (parts : List (List Char)) : List Char :=
  match parts with
  | [] => []
  | [a] => a
  | a :: rest => a ++ '/' :: intercalateSlash rest

/-- Everything before the last slash: models os.path.dirname for the
relative and slash-separated paths this script uses. -/
def dirnameS (p : String) : String :=
  String.mk (intercalateSlash ((splitChar '/' p.data).dropLast))

/-- Models os.path.join for the non-absolute second arguments this
script uses. -/
def pathJoinS (a b : String) : String :=
  if a = "" then b else if endsWithS a "/" then a ++ b else a ++ "/" ++ b

/-- Replacement loop for str.replace: at each position, when the
pattern starts here, emit the replacement and skip past the match
(left to right, non-overlapping), otherwise keep the character. The
fuel argument (instantiated with the length of the scanned list) only
makes the recursion structural. -/
def replaceCharsAux (pat rep : List Char) : Nat → List Char → List Char
  | _, [] => []
  | 0, l => l
  | Nat.succ fuel, a :: rest =>
      if pat.isPrefixOf (a :: rest) then
        rep ++ replaceCharsAux pat rep fuel ((a :: rest).drop pat.length)
      else
        a :: replaceCharsAux pat rep fuel rest

/-- Models str.replace for a non-empty pattern (the only way the script
uses it). -/
def replaceS (s pat rep : String) : String :=
  if pat.data = [] then s
  else String.mk (replaceCharsAux pat.data rep.data s.data.length s.data)

/-- Models str.strip for the space-only whitespace these inputs use. -/
def stripS (s : String) : String :=
  String.mk
    (((s.data.dropWhile (fun c => c == ' ')).reverse.dropWhile
      (fun c => c == ' ')).reverse)

/-! ## Binary filesystem and the downloader `_url_to_binary_write` -/

/-- Error values raised by the modelled runtime (the Python exception,
identified by its description so re-raising "unchanged" is expressible). -/
abbrev Err := String

/-- A binary filesystem: association list from path to byte contents,
most recent write first. -/
abbrev BinFS := List (String × List Nat)

/-- Models os.path.exists on the binary filesystem. -/
def pathExistsF (fs : BinFS) (p : String) : Bool :=
  fs.any (fun e => e.1 == p)

/-- Create or truncate a file: models open(p, wb-mode). -/
def fsWrite (fs : BinFS) (p : String) (c : List Nat) : BinFS :=
  (p, c) :: fs.filter (fun e => !(e.1 == p))

/-- Append bytes to an existing open file: models f.write + f.flush. -/
def fsAppend (fs : BinFS) (p : String) (c : List Nat) : BinFS :=
  match fs.find? (fun e => e.1 == p) with
  | some e => (p, e.2 ++ c) :: fs.filter (fun e => !(e.1 == p))
  | none => (p, c) :: fs

/-- Models os.remove. -/
def fsRemove (fs : BinFS) (p : String) : BinFS :=
  fs.filter (fun e => !(e.1 == p))

/-- One event of the streamed response body iterator
(resp.iter_content): either a chunk of bytes is yielded, or the
iteration raises an error. -/
inductive StreamEvent where
  | chunk (data : List Nat)
  | fail (e : Err)
deriving DecidableEq

/-- The chunk-write loop of `_url_to_binary_write`: write and flush each
truthy (non-empty) chunk; an error event aborts the loop and is the
raised exception. -/
def writeChunkLoop (fs : BinFS) (out : String) : List StreamEvent → BinFS × Option Err
  | [] => (fs, none)
  | StreamEvent.chunk c :: rest =>
      let fs1 := if c.isEmpty then fs else fsAppend fs out c
      writeChunkLoop fs1 out rest
  | StreamEvent.fail e :: _ => (fs, some e)

/-- Models `_url_to_binary_write` after the streaming response is
opened: open output_path in wb mode (creating or truncating it), run the
chunk-write loop; on any exception, remove output_path when it exists
and re-raise the same exception. -/
def urlToBinaryWrite (fs : BinFS) (outputPath : String) (events : List StreamEvent) :
    BinFS × Option Err :=
  let fsOpened := fsWrite fs outputPath []
  match writeChunkLoop fsOpened outputPath events with
  | (fs2, none) => (fs2, none)
  | (fs2, some e) =>
      ((if pathExistsF fs2 outputPath then fsRemove fs2 outputPath else fs2), some e)

/-- The first error raised by the response stream, if any. -/
def firstFail : List StreamEvent → Option Err
  | [] => none
  | StreamEvent.chunk _ :: rest => firstFail rest
  | StreamEvent.fail e :: _ => some e

theorem pathExistsF_fsRemove (fs : BinFS) (p : String) :
    pathExistsF (fsRemove fs p) p = false := by
  induction fs with
  | nil => rfl
  | cons e t ih =>
      by_cases h : e.1 = p
      · simp only [fsRemove, pathExistsF, List.filter_cons] at *
        simp [h, ih]
      · simp only [fsRemove, pathExistsF, List.filter_cons] at *
        simp [h, ih]

theorem writeChunkLoop_snd (out : String) (events : List StreamEvent) :
    ∀ fs : BinFS, (writeChunkLoop fs out events).snd = firstFail events := by
  induction events with
  | nil => intro fs; rfl
  | cons ev rest ih =>
      intro fs
      cases ev with
      | chunk c => simp [writeChunkLoop, firstFail, ih]
      | fail e => rfl

/-- C1. Any exception raised during the chunk-write loop makes the
downloader delete the output file (it never survives on disk) and
re-raise the original exception unchanged to the caller. -/
theorem urlToBinaryWrite_cleanup_on_failure
    (fs : BinFS) (out : String) (events : List StreamEvent) (e : Err)
    (h : firstFail events = some e) :
    (urlToBinaryWrite fs out events).snd = some e ∧
    pathExistsF (urlToBinaryWrite fs out events).fst out = false := by
  rcases hw : writeChunkLoop (fsWrite fs out []) out events with ⟨fs2, r⟩
  have hr : r = some e := by
    have := writeChunkLoop_snd out events (fsWrite fs out [])
    rw [hw] at this
    simpa [h] using this
  subst hr
  constructor
  · simp [urlToBinaryWrite, hw]
  · by_cases hex : pathExistsF fs2 out = true
    · simp [urlToBinaryWrite, hw, hex, pathExistsF_fsRemove]
    · simp only [Bool.not_eq_true] at hex
      simp [urlToBinaryWrite, hw, hex]

/-- Concrete instantiation of the failed-download cleanup theorem: a
stream that yields one chunk and then raises. -/
theorem urlToBinaryWrite_cleanup_on_failure_witness :
    (urlToBinaryWrite [] "dem.zip"
        [StreamEvent.chunk [7], StreamEvent.fail "connection reset"]).snd =
      some "connection reset" ∧
    pathExistsF
      (urlToBinaryWrite [] "dem.zip"
        [StreamEvent.chunk [7], StreamEvent.fail "connection reset"]).fst
      "dem.zip" = false :=
  urlToBinaryWrite_cleanup_on_failure [] "dem.zip"
    [StreamEvent.chunk [7], StreamEvent.fail "connection reset"]
    "connection reset" (by rfl)

/-! ## The progress bar `Bar` and its ETA sample window -/

/-- ETA_INTERVAL: how long to wait before recalculating the ETA. -/
def etaInterval : ℚ := 1

/-- ETA_SMA_WINDOW: how many intervals (excluding the current one) enter
the simple moving average. -/
def etaSmaWindow : Nat := 9

/-- State of a `Bar` progress reporter. Wall-clock times and rates are
floats in the source; they are modelled as rationals, which preserves
the list structure of the sample window exactly. -/
structure Bar where
  expectedSize : ℚ
  start : ℚ
  ittimes : List ℚ
  eta : ℚ
  etadelta : ℚ
  lastProgress : Nat
deriving DecidableEq

/-- A fresh `Bar` constructed at wall-clock time `now` with a known
expected size: start and etadelta are both set to the current time and
the sample window starts empty. -/
def Bar.init (expectedSize : ℚ) (now : ℚ) : Bar :=
  { expectedSize := expectedSize
    start := now
    ittimes := []
    eta := 0
    etadelta := now
    lastProgress := 0 }

/-- Models `Bar.show` at wall-clock time `now` (rendering effects
omitted): record the progress, and when more than `etaInterval` has
passed since the last recomputation, keep the last `etaSmaWindow`
samples of the window, append the new instantaneous sample
`(now - start) / (progress + 1)`, and recompute the ETA as the window
average times the remaining units. -/
def Bar.showStep (b : Bar) (now : ℚ) (progress : Nat) : Bar :=
  if now - b.etadelta > etaInterval then
    let itt := b.ittimes.drop (b.ittimes.length - etaSmaWindow) ++
      [(now - b.start) / ((progress : ℚ) + 1)]
    { b with
      lastProgress := progress
      etadelta := now
      ittimes := itt
      eta := itt.sum / (itt.length : ℚ) * (b.expectedSize - (progress : ℚ)) }
  else
    { b with lastProgress := progress }

/-- A sequence of `show` calls, each given as (wall-clock time, progress). -/
def runBar (b : Bar) (events : List (ℚ × Nat)) : Bar :=
  events.foldl (fun b e => b.showStep e.1 e.2) b

/-- C3 counterexample: ten ETA recomputations spaced two time units
apart leave ten samples in the window, so the window does exceed 9. -/
theorem bar_window_reaches_ten :
    (runBar (Bar.init 100 0)
      [(2, 1), (4, 2), (6, 3), (8, 4), (10, 5),
       (12, 6), (14, 7), (16, 8), (18, 9), (20, 10)]).ittimes.length = 10 := by
  norm_num [runBar, Bar.showStep, Bar.init, etaInterval, etaSmaWindow, List.foldl]

/-- C3 amended: the ETA sample window never holds more than 10 samples
(the last 9 retained samples plus the new one), for any sequence of
`show` calls starting from a window of at most 10 samples. -/
theorem bar_window_bounded (b : Bar) (events : List (ℚ × Nat))
    (h : b.ittimes.length ≤ etaSmaWindow + 1) :
    (runBar b events).ittimes.length ≤ etaSmaWindow + 1 := by
  induction events generalizing b with
  | nil => exact h
  | cons ev rest ih =>
      show (runBar (b.showStep ev.1 ev.2) rest).ittimes.length ≤ etaSmaWindow + 1
      apply ih
      unfold Bar.showStep
      split
      · dsimp only
        simp only [List.length_append, List.length_drop, List.length_cons,
          List.length_nil, etaSmaWindow]
        omega
      · exact h

/-- Concrete instantiation of the window bound: a fresh bar with one
recomputation stays within 10 samples. -/
theorem bar_window_bounded_witness :
    (runBar (Bar.init 100 0) [(2, 1)]).ittimes.length ≤ etaSmaWindow + 1 :=
  bar_window_bounded (Bar.init 100 0) [(2, 1)] (by decide)

/-! ## Download progress arithmetic (`_url_to_binary_write` with `bar`) -/

/-- Splits the response body into successive chunks of at most 1024
bytes: models resp.iter_content with chunk_size 1024. -/
def chunksOf1024 (l : List Nat) : List (List Nat) :=
  if h : l = [] then [] else l.take 1024 :: chunksOf1024 (l.drop 1024)
termination_by l.length
decreasing_by
  have : 0 < l.length := List.length_pos.mpr h
  simp only [List.length_drop]
  omega

/-- The expected size handed to `bar` by `_url_to_binary_write`:
total_length / 1024 + 1 under true division (the module imports
division from __future__), so it is generally not an integer. -/
def expectedSizeOf (totalLength : Nat) : ℚ :=
  (totalLength : ℚ) / 1024 + 1

/-- The progress values reported by the `bar` generator: show(i + 1)
for the i-th chunk, i = 0 .. numChunks - 1. -/
def progressCalls (numChunks : Nat) : List Nat :=
  (List.range numChunks).map (fun i => i + 1)

theorem chunksOf1024_length (l : List Nat) :
    (chunksOf1024 l).length = (l.length + 1023) / 1024 := by
  induction l using chunksOf1024.induct with
  | case1 => simp [chunksOf1024]
  | case2 l h ih =>
      have hpos : 0 < l.length := List.length_pos.mpr h
      rw [chunksOf1024]
      simp only [h, dite_false, List.length_cons, ih, List.length_drop]
      omega

theorem progressCalls_pairwise (n : Nat) :
    (progressCalls n).Pairwise (· ≤ ·) := by
  unfold progressCalls
  exact (List.pairwise_lt_range n).map _ (fun a b hab => by omega)

theorem progressCalls_getLastD (n : Nat) :
    (progressCalls n).getLastD 0 = n := by
  cases n with
  | zero => rfl
  | succ m =>
      unfold progressCalls
      rw [List.range_succ, List.map_append]
      simp

theorem numChunks_lt_expectedSize (L : Nat) :
    (((L + 1023) / 1024 : Nat) : ℚ) < expectedSizeOf L := by
  have h1 : ((L + 1023) / 1024) * 1024 ≤ L + 1023 := Nat.div_mul_le_self _ _
  have h2 : (((L + 1023) / 1024 : Nat) : ℚ) * 1024 ≤ (L : ℚ) + 1023 := by
    exact_mod_cast h1
  have h3 : (0 : ℚ) < 1024 := by norm_num
  rw [expectedSizeOf, show (L : ℚ) / 1024 + 1 = ((L : ℚ) + 1024) / 1024 by ring,
    lt_div_iff₀ h3]
  linarith

/-- C8 counterexample: for content-length 1024 the expected total handed
to the bar is 1024/1024 + 1 = 2, not ceil(1024/1024) = 1, and the final
progress call reports 1 (the single chunk), which differs from the
expected total. -/
theorem download_progress_cex :
    expectedSizeOf 1024 = 2 ∧
    (1024 + 1023) / 1024 = 1 ∧
    (chunksOf1024 (List.replicate 1024 0)).length = 1 ∧
    (progressCalls (chunksOf1024 (List.replicate 1024 0)).length).getLastD 0 = 1 ∧
    expectedSizeOf 1024 ≠ ((1 : Nat) : ℚ) := by
  refine ⟨by norm_num [expectedSizeOf], by norm_num, ?_, ?_, by norm_num [expectedSizeOf]⟩
  · rw [chunksOf1024_length, List.length_replicate]
  · rw [chunksOf1024_length, List.length_replicate]
    rw [show (1024 + 1023) / 1024 = 1 by norm_num, progressCalls_getLastD]

/-- C8 amended: for a body of L bytes delivered in 1024-byte chunks, the
number of chunks (hence the final reported progress) is ceil(L / 1024),
the reported progress values are monotonically non-decreasing, and the
final reported progress is strictly below the expected total
L / 1024 + 1 that `_url_to_binary_write` passes to `bar` (so it never
equals the expected total). -/
theorem download_progress_amended (body : List Nat) :
    (chunksOf1024 body).length = (body.length + 1023) / 1024 ∧
    (progressCalls (chunksOf1024 body).length).Pairwise (· ≤ ·) ∧
    (progressCalls (chunksOf1024 body).length).getLastD 0 =
      (chunksOf1024 body).length ∧
    (((chunksOf1024 body).length : Nat) : ℚ) < expectedSizeOf body.length := by
  refine ⟨chunksOf1024_length body, progressCalls_pairwise _,
    progressCalls_getLastD _, ?_⟩
  rw [chunksOf1024_length]
  exact numChunks_lt_expectedSize body.length

/-! ## Text filesystem with directories, and `_unzip_7z` -/

/-- A filesystem of text files and directories: `files` is an
association list from path to text contents where the most recent write
comes first (so writing models overwrite), `dirs` is the set of
directories. -/
structure DataFS where
  files : List (String × String)
  dirs : List String
deriving DecidableEq

/-- True when a file exists at `p`. -/
def DataFS.hasFile (fs : DataFS) (p : String) : Bool :=
  fs.files.any (fun e => e.1 == p)

/-- True when a directory exists at `p`. -/
def DataFS.hasDir (fs : DataFS) (p : String) : Bool :=
  fs.dirs.any (fun q => q == p)

/-- Models os.path.exists: true for a file or a directory. -/
def DataFS.pathExists (fs : DataFS) (p : String) : Bool :=
  fs.hasFile p || fs.hasDir p

/-- The contents of the file at `p`, if any (most recent write wins). -/
def DataFS.readFile (fs : DataFS) (p : String) : Option String :=
  (fs.files.find? (fun e => e.1 == p)).map (fun e => e.2)

/-- Models open(p, w-mode) followed by writing `c`: the new entry
shadows any older entry for the same path. -/
def DataFS.writeFile (fs : DataFS) (p c : String) : DataFS :=
  { fs with files := (p, c) :: fs.files }

/-- Models os.mkdir. -/
def DataFS.mkdir (fs : DataFS) (p : String) : DataFS :=
  { fs with dirs := p :: fs.dirs }

/-- Models os.remove on the text filesystem. -/
def DataFS.removeFile (fs : DataFS) (p : String) : DataFS :=
  { fs with files := fs.files.filter (fun e => !(e.1 == p)) }

/-- One member of an opened 7z archive: its archived name and its
decoded text contents (fi.read().decode()). -/
structure SevenZMember where
  name : String
  contents : String
deriving DecidableEq

/-- The path `_unzip_7z` writes an archive member to: the member's
basename joined onto the directory of the archive file. -/
def gndPath (dataDir : String) (m : SevenZMember) : String :=
  pathJoinS dataDir (basenameS m.name)

/-- The body of the `_unzip_7z` loop for one member: create the parent
directory of the target path when it does not exist yet, then write the
decoded text contents. -/
def unzip7zStep (dataDir : String) (fs : DataFS) (m : SevenZMember) : DataFS :=
  if fs.pathExists (dirnameS (gndPath dataDir m)) then
    fs.writeFile (gndPath dataDir m) m.contents
  else
    (fs.mkdir (dirnameS (gndPath dataDir m))).writeFile (gndPath dataDir m) m.contents

/-- Models `_unzip_7z` on an archive at `fname` whose opened contents
are `members`: each member is written into the directory containing the
archive (data_dir = dirname of fname). -/
def unzip7z (fs : DataFS) (fname : String) (members : List SevenZMember) : DataFS :=
  members.foldl (unzip7zStep (dirnameS fname)) fs

theorem hasFile_unzip7zStep (dataDir : String) (fs : DataFS) (m : SevenZMember)
    (p : String) (h : fs.hasFile p = true) :
    (unzip7zStep dataDir fs m).hasFile p = true := by
  unfold unzip7zStep
  split <;> simp_all [DataFS.hasFile, DataFS.writeFile, DataFS.mkdir, List.any_cons]

theorem pathExists_unzip7zStep (dataDir : String) (fs : DataFS) (m : SevenZMember)
    (p : String) (h : fs.pathExists p = true) :
    (unzip7zStep dataDir fs m).pathExists p = true := by
  unfold unzip7zStep
  unfold DataFS.pathExists DataFS.hasFile DataFS.hasDir DataFS.writeFile
    DataFS.mkdir at *
  split <;>
    · simp only [List.any_cons] at *
      rcases Bool.or_eq_true_iff.mp h with h1 | h1 <;> simp [h1]

theorem unzip7zStep_writes (dataDir : String) (fs : DataFS) (m : SevenZMember) :
    (unzip7zStep dataDir fs m).hasFile (gndPath dataDir m) = true ∧
    (unzip7zStep dataDir fs m).pathExists (dirnameS (gndPath dataDir m)) = true := by
  constructor
  · unfold unzip7zStep
    split <;> simp [DataFS.hasFile, DataFS.writeFile, DataFS.mkdir, List.any_cons]
  · unfold unzip7zStep
    split
    · rename_i h
      unfold DataFS.pathExists DataFS.hasFile DataFS.hasDir at *
      simp only [DataFS.writeFile, List.any_cons] at *
      rcases Bool.or_eq_true_iff.mp h with h1 | h1 <;> simp [h1]
    · unfold DataFS.pathExists DataFS.hasFile DataFS.hasDir
      simp [DataFS.writeFile, DataFS.mkdir]

theorem hasFile_unzip7z_of (fname : String) (members : List SevenZMember) :
    ∀ fs : DataFS, ∀ p : String, fs.hasFile p = true →
      (unzip7z fs fname members).hasFile p = true := by
  induction members with
  | nil => intro fs p h; exact h
  | cons m rest ih =>
      intro fs p h
      exact ih _ p (hasFile_unzip7zStep _ fs m p h)

theorem pathExists_unzip7z_of (fname : String) (members : List SevenZMember) :
    ∀ fs : DataFS, ∀ p : String, fs.pathExists p = true →
      (unzip7z fs fname members).pathExists p = true := by
  induction members with
  | nil => intro fs p h; exact h
  | cons m rest ih =>
      intro fs p h
      exact ih _ p (pathExists_unzip7zStep _ fs m p h)

/-- C6 amended: for every member of a 7z archive at `fname`, after
`_unzip_7z` the member has been written to data_dir/basename(name) —
the member's own basename, with no extension substitution — and the
parent directory of that path exists (it was created when missing). -/
theorem unzip7z_member_written (fs : DataFS) (fname : String)
    (members : List SevenZMember) (m : SevenZMember) (hm : m ∈ members) :
    (unzip7z fs fname members).hasFile (gndPath (dirnameS fname) m) = true ∧
    (unzip7z fs fname members).pathExists
      (dirnameS (gndPath (dirnameS fname) m)) = true := by
  induction members generalizing fs with
  | nil => cases hm
  | cons m0 rest ih =>
      rcases List.mem_cons.mp hm with h0 | h0
      · subst h0
        have hw := unzip7zStep_writes (dirnameS fname) fs m
        exact ⟨hasFile_unzip7z_of fname rest _ _ hw.1,
          pathExists_unzip7z_of fname rest _ _ hw.2⟩
      · exact ih (unzip7zStep (dirnameS fname) fs m0) h0

/-- Concrete instantiation of the amended 7z theorem on a one-member
archive. -/
theorem unzip7z_member_written_witness :
    (unzip7z ⟨[], ["here", "here/data"]⟩ "here/data/q1.7z"
        [⟨"q1.gnd", "lidar points"⟩]).hasFile
      (gndPath (dirnameS "here/data/q1.7z") ⟨"q1.gnd", "lidar points"⟩) = true ∧
    (unzip7z ⟨[], ["here", "here/data"]⟩ "here/data/q1.7z"
        [⟨"q1.gnd", "lidar points"⟩]).pathExists
      (dirnameS (gndPath (dirnameS "here/data/q1.7z")
        ⟨"q1.gnd", "lidar points"⟩)) = true :=
  unzip7z_member_written ⟨[], ["here", "here/data"]⟩ "here/data/q1.7z"
    [⟨"q1.gnd", "lidar points"⟩] ⟨"q1.gnd", "lidar points"⟩ (by simp)

/-- C6 counterexample: extracting an archive at here/data/a.7z with one
member named sub/f.txt writes the file here/data/f.txt (the unchanged
basename); no path with a gnd extension substituted for the name is
created. -/
theorem unzip7z_no_gnd_substitution :
    (unzip7z ⟨[], ["here", "here/data"]⟩ "here/data/a.7z"
        [⟨"sub/f.txt", "hello"⟩]).hasFile "here/data/f.txt" = true ∧
    (unzip7z ⟨[], ["here", "here/data"]⟩ "here/data/a.7z"
        [⟨"sub/f.txt", "hello"⟩]).hasFile "here/data/f.gnd" = false ∧
    (unzip7z ⟨[], ["here", "here/data"]⟩ "here/data/a.7z"
        [⟨"sub/f.txt", "hello"⟩]).hasFile "here/data/sub/f.gnd" = false := by
  decide

/-! ## Archive format dispatch `_extract_downloaded_archive` -/

/-- The archive formats the extractor can dispatch to. -/
inductive ArchiveKind where
  | targz
  | tarPlain
  | tarbz2
  | zipArc
  | sevenZ
deriving DecidableEq

/-- The suffix dispatch of `_extract_downloaded_archive`, translated
branch by branch from its if/elif chain. -/
def dispatchSuffix (p : String) : Option ArchiveKind :=
  if endsWithS p "tar.gz" then some ArchiveKind.targz
  else if endsWithS p "tar" then some ArchiveKind.tarPlain
  else if endsWithS p "tar.bz2" then some ArchiveKind.tarbz2
  else if endsWithS p "zip" then some ArchiveKind.zipArc
  else if endsWithS p "7z" then some ArchiveKind.sevenZ
  else none

/-- Modelled from the spec: the dispatch order as the spec words it — a
first-match scan of the suffix list tar.gz, tar, tar.bz2, zip, 7z. -/
def dispatchSpecOrder (p : String) : Option ArchiveKind :=
  (([("tar.gz", ArchiveKind.targz), ("tar", ArchiveKind.tarPlain),
     ("tar.bz2", ArchiveKind.tarbz2), ("zip", ArchiveKind.zipArc),
     ("7z", ArchiveKind.sevenZ)] : List (String × ArchiveKind)).find?
    (fun e => endsWithS p e.1)).map (fun e => e.2)

/-- Models `_extract_downloaded_archive`: dispatch on the suffix, run
the selected extractor (the codecs are an external capability,
abstracted as `runExtractor`, which may raise), then delete the archive
file; an unmatched suffix runs no extractor and raises nothing. -/
def extractDownloadedArchive (runExtractor : ArchiveKind → DataFS → Except Err DataFS)
    (fs : DataFS) (p : String) : Except Err DataFS :=
  match dispatchSuffix p with
  | some k =>
      match runExtractor k fs with
      | Except.ok fs2 => Except.ok (fs2.removeFile p)
      | Except.error e => Except.error e
  | none => Except.ok (fs.removeFile p)

theorem hasFile_removeFile (fs : DataFS) (p : String) :
    (fs.removeFile p).hasFile p = false := by
  unfold DataFS.removeFile DataFS.hasFile
  simp only []
  induction fs.files with
  | nil => rfl
  | cons e t ih =>
      by_cases h : e.1 = p
      · simp [List.filter_cons, h, ih]
      · simp only [List.filter_cons] at *
        simp [h, ih]

/-- C5. The suffix dispatch equals a first-match scan of the ordered
suffix list tar.gz, tar, tar.bz2, zip, 7z; an unrecognized name such as
archive.dat selects no extractor and the call still succeeds, returning
the filesystem with the archive deleted; and whenever extraction does
not raise, the archive file is gone from the result. -/
theorem extract_dispatch_and_delete :
    (∀ p : String, dispatchSuffix p = dispatchSpecOrder p) ∧
    (dispatchSuffix "archive.dat" = none ∧
      ∀ (re : ArchiveKind → DataFS → Except Err DataFS) (fs : DataFS),
        extractDownloadedArchive re fs "archive.dat" =
          Except.ok (fs.removeFile "archive.dat")) ∧
    (∀ (re : ArchiveKind → DataFS → Except Err DataFS) (fs fs2 : DataFS) (p : String),
      extractDownloadedArchive re fs p = Except.ok fs2 →
        fs2.hasFile p = false) := by
  refine ⟨?_, ⟨by decide, ?_⟩, ?_⟩
  · intro p
    unfold dispatchSuffix dispatchSpecOrder
    by_cases h1 : endsWithS p "tar.gz" = true <;>
      by_cases h2 : endsWithS p "tar" = true <;>
        by_cases h3 : endsWithS p "tar.bz2" = true <;>
          by_cases h4 : endsWithS p "zip" = true <;>
            by_cases h5 : endsWithS p "7z" = true <;>
              simp [h1, h2, h3, h4, h5, List.find?]
  · intro re fs
    have hd : dispatchSuffix "archive.dat" = none := by decide
    simp [extractDownloadedArchive, hd]
  · intro re fs fs2 p h
    unfold extractDownloadedArchive at h
    rcases hd : dispatchSuffix p with _ | k
    · rw [hd] at h
      dsimp only at h
      cases h
      exact hasFile_removeFile fs p
    · rw [hd] at h
      dsimp only at h
      rcases hre : re k fs with e | fs3 <;> rw [hre] at h <;> dsimp only at h
      · cases h
      · cases h
        exact hasFile_removeFile fs3 p

/-- Concrete instantiation of the dispatch-and-delete theorem: with an
extractor capability that succeeds without touching the filesystem, the
extracted zip archive no longer exists afterward. -/
theorem extract_dispatch_and_delete_witness :
    DataFS.hasFile
      (DataFS.removeFile (DataFS.mk [("dem.zip", "bytes")] []) "dem.zip")
      "dem.zip" = false :=
  extract_dispatch_and_delete.2.2 (fun _ fs => Except.ok fs)
    (DataFS.mk [("dem.zip", "bytes")] [])
    (DataFS.removeFile (DataFS.mk [("dem.zip", "bytes")] []) "dem.zip")
    "dem.zip" (by rfl)

/-! ## Dataset descriptors and `_process_dataset` -/

/-- One dataset entry of datasets.yml. `files` defaults to the empty
list when the key is absent (dataset.get with default), and `tag` is
absent or a string. -/
structure Dataset where
  title : String
  url : String
  files : List String
  tag : Option String
deriving DecidableEq

/-- The observable effects of processing one dataset, in order: a skip
message, a network download (url, local output path, displayed title),
or an archive extraction. -/
inductive Action where
  | skip (title : String)
  | download (url : String) (outputPath : String) (title : String)
  | extract (path : String)
deriving DecidableEq

/-- Exceptions raised by the planning code. -/
inductive PErr where
  | notImplemented (msg : String)
deriving DecidableEq

/-- The fixed message of the NotImplementedError raised for an unknown
tag. -/
def notImplMsg : String :=
  "For a many-file dataset, see the example in the lidar dataset of datasets.yml and define a special case here if needed"

/-- True when `pat` occurs as a contiguous run inside `l`. -/
def containsSub (l : List Char) (pat : List Char) : Bool :=
  match l with
  | [] => pat.isPrefixOf []
  | a :: rest => pat.isPrefixOf (a :: rest) || containsSub rest pat

/-- True when `msg` mentions `v` as a substring (used to check whether
an error message names a value). -/
def mentionsValue (msg v : String) : Bool :=
  containsSub msg.data v.data

/-- Models `_lidar_url_to_files`: per-file URLs substitute the fixed
.html suffix of the dataset URL by a slash and the stripped file name;
compressed paths live under here/data; decompressed names substitute
gnd for 7z in each file name. -/
def lidarUrlToFiles (here url : String) (files : List String) :
    List String × List String × List String :=
  (files.map (fun f => replaceS url ".html" ("/" ++ stripS f)),
   files.map (fun f => pathJoinS (pathJoinS here "data") (basenameS f)),
   files.map (fun f => replaceS f "7z" "gnd"))

/-- The displayed per-unit title: title followed by "i of n". -/
def runningTitle (title : String) (i n : Nat) : String :=
  title ++ " " ++ toString i ++ " of " ++ toString n

/-- Models `_handle_special_cases` (reached only for a truthy tag): the
lidar tag expands into per-file download+extract units, each skipped
when its decompressed .gnd counterpart already exists; any other tag
raises NotImplementedError before any unit is processed. `existing`
lists the paths for which os.path.exists answers true. -/
def handleSpecialCases (existing : List String) (here : String) (d : Dataset) :
    List Action × Option PErr :=
  let tag := d.tag.getD ""
  if tag = "lidar" then
    let u := lidarUrlToFiles here d.url d.files
    let n := u.1.length
    let triples := u.1.zip (u.2.1.zip u.2.2)
    (triples.enum.foldr (fun it acc =>
      if existing.contains it.2.2.2 then
        Action.skip (runningTitle d.title (it.1 + 1) n) :: acc
      else
        Action.download it.2.1 it.2.2.1 (runningTitle d.title (it.1 + 1) n) ::
          Action.extract it.2.2.1 :: acc) [], none)
  else
    ([], some (PErr.notImplemented notImplMsg))

/-- Models `_process_dataset` inside the output directory: when every
declared file already exists there, print a skip message and return;
otherwise a tagless dataset downloads the last segment of its url and
extracts it, and a tagged dataset goes through the special cases. -/
def processDataset (existing : List String) (here : String) (d : Dataset) :
    List Action × Option PErr :=
  if d.files.any (fun f => !(existing.contains f)) then
    if d.tag.getD "" = "" then
      ([Action.download d.url (basenameS d.url) d.title,
        Action.extract (basenameS d.url)], none)
    else
      handleSpecialCases existing here d
  else
    ([Action.skip d.title], none)

/-- True when the action trace contains a network download or an
archive extraction. -/
def touchesNetworkOrArchive (acts : List Action) : Bool :=
  acts.any (fun a =>
    match a with
    | Action.skip _ => false
    | Action.download _ _ _ => true
    | Action.extract _ => true)

/-- C2. When every declared file of a dataset already exists in the
output directory, processing returns only the skip decision: no network
download and no archive extraction happens, so re-running the pipeline
on satisfied datasets is idempotent. -/
theorem processDataset_skip_when_satisfied (existing : List String)
    (here : String) (d : Dataset)
    (h : d.files.all (fun f => existing.contains f) = true) :
    processDataset existing here d = ([Action.skip d.title], none) ∧
    touchesNetworkOrArchive (processDataset existing here d).fst = false := by
  have hreq : d.files.any (fun f => !(existing.contains f)) = false := by
    rw [List.any_eq_false]
    intro f hf
    have hc := List.all_eq_true.mp h f hf
    simp only [hc, Bool.not_true, ne_eq, not_false_eq_true]
    simp
  have hmain : processDataset existing here d = ([Action.skip d.title], none) := by
    unfold processDataset
    rw [hreq]
    rfl
  exact ⟨hmain, by rw [hmain]; rfl⟩

/-- Concrete instantiation of the satisfied-dataset skip: both declared
files exist. -/
theorem processDataset_skip_when_satisfied_witness :
    processDataset ["dem.tif", "roads.shp"] "here"
      (Dataset.mk "DEM" "http://x/dem.zip" ["dem.tif", "roads.shp"] none) =
      ([Action.skip "DEM"], none) ∧
    touchesNetworkOrArchive
      (processDataset ["dem.tif", "roads.shp"] "here"
        (Dataset.mk "DEM" "http://x/dem.zip" ["dem.tif", "roads.shp"] none)).fst =
      false :=
  processDataset_skip_when_satisfied ["dem.tif", "roads.shp"] "here"
    (Dataset.mk "DEM" "http://x/dem.zip" ["dem.tif", "roads.shp"] none) (by decide)

/-- C10. A dataset whose files list is absent or empty always takes the
skip branch, whatever its tag or url and whatever exists on disk: the
pre-download check iterates over no file, so requires_download stays
false. -/
theorem processDataset_skip_when_no_files (existing : List String)
    (here : String) (d : Dataset) (h : d.files = []) :
    processDataset existing here d = ([Action.skip d.title], none) ∧
    touchesNetworkOrArchive (processDataset existing here d).fst = false := by
  have hreq : d.files.any (fun f => !(existing.contains f)) = false := by
    rw [h]
    rfl
  have hmain : processDataset existing here d = ([Action.skip d.title], none) := by
    unfold processDataset
    rw [hreq]
    rfl
  exact ⟨hmain, by rw [hmain]; rfl⟩

/-- Concrete instantiation of the empty-files skip: a tagged dataset
with no files is skipped even though nothing exists on disk. -/
theorem processDataset_skip_when_no_files_witness :
    processDataset [] "here"
      (Dataset.mk "L" "http://x/index.html" [] (some "lidar")) =
      ([Action.skip "L"], none) ∧
    touchesNetworkOrArchive
      (processDataset [] "here"
        (Dataset.mk "L" "http://x/index.html" [] (some "lidar"))).fst = false :=
  processDataset_skip_when_no_files [] "here"
    (Dataset.mk "L" "http://x/index.html" [] (some "lidar")) (by rfl)

/-- C4 counterexample: for the lidar descriptor with url
http://x/index.html and files a.7z and b.7z, the per-file URLs keep the
index segment — str.replace turns the .html suffix into /a.7z, giving
http://x/index/a.7z — so the claimed URL http://x/a.7z is not among the
planned downloads. -/
theorem lidar_expansion_cex :
    (lidarUrlToFiles "here" "http://x/index.html" ["a.7z", "b.7z"]).1 =
      ["http://x/index/a.7z", "http://x/index/b.7z"] ∧
    "http://x/index/a.7z" ≠ "http://x/a.7z" ∧
    (processDataset [] "here"
      (Dataset.mk "T" "http://x/index.html" ["a.7z", "b.7z"] (some "lidar"))).fst.all
      (fun a =>
        match a with
        | Action.download u _ _ => !(u == "http://x/a.7z")
        | _ => true) = true := by
  refine ⟨by decide, by decide, by decide⟩

/-- C4 amended: the lidar descriptor expands to exactly two transfer
units, with source URLs http://x/index/a.7z and http://x/index/b.7z
(the .html suffix of the dataset URL replaced by a slash and the
per-file name), downloaded to here/data and displayed with titles
suffixed "1 of 2" and "2 of 2". -/
theorem lidar_expansion_amended :
    processDataset [] "here"
      (Dataset.mk "T" "http://x/index.html" ["a.7z", "b.7z"] (some "lidar")) =
      ([Action.download "http://x/index/a.7z" "here/data/a.7z" "T 1 of 2",
        Action.extract "here/data/a.7z",
        Action.download "http://x/index/b.7z" "here/data/b.7z" "T 2 of 2",
        Action.extract "here/data/b.7z"], none) := by
  decide

/-- C7 counterexample: planning the unknown tag foo raises before any
download, but the error is a NotImplementedError whose message is a
fixed sentence that does not mention foo, so the failure does not name
the unknown tag value. -/
theorem unknown_tag_cex :
    processDataset [] "here"
      (Dataset.mk "F" "http://x/f.zip" ["f.bin"] (some "foo")) =
      ([], some (PErr.notImplemented notImplMsg)) ∧
    mentionsValue notImplMsg "foo" = false ∧
    mentionsValue notImplMsg "lidar" = true := by
  refine ⟨by decide, by decide, by decide⟩

/-- C7 amended: a dataset with a non-empty tag other than lidar whose
declared files are not all present fails fast with NotImplementedError
carrying the fixed message, and its action trace is empty — no network
download happens before the failure. The message does not name the
offending tag value. -/
theorem unknown_tag_fails_fast (existing : List String) (here : String)
    (d : Dataset) (t : String) (htag : d.tag = some t) (hne : t ≠ "")
    (hnl : t ≠ "lidar")
    (hmiss : d.files.any (fun f => !(existing.contains f)) = true) :
    processDataset existing here d = ([], some (PErr.notImplemented notImplMsg)) ∧
    touchesNetworkOrArchive (processDataset existing here d).fst = false := by
  have hmain : processDataset existing here d =
      ([], some (PErr.notImplemented notImplMsg)) := by
    unfold processDataset handleSpecialCases
    rw [hmiss, htag]
    simp [hne, hnl]
  exact ⟨hmain, by rw [hmain]; rfl⟩

/-- Concrete instantiation of the unknown-tag failure. -/
theorem unknown_tag_fails_fast_witness :
    processDataset [] "here"
      (Dataset.mk "F" "http://x/f.zip" ["f.bin"] (some "foo")) =
      ([], some (PErr.notImplemented notImplMsg)) ∧
    touchesNetworkOrArchive
      (processDataset [] "here"
        (Dataset.mk "F" "http://x/f.zip" ["f.bin"] (some "foo"))).fst = false :=
  unknown_tag_fails_fast [] "here"
    (Dataset.mk "F" "http://x/f.zip" ["f.bin"] (some "foo")) "foo" (by rfl)
    (by decide) (by decide) (by decide)

/-! ## Working-directory discipline (`DirectoryContext`) -/

/-- The process state for one dataset run: its current working
directory, the set of created directories and the observable files. -/
structure World where
  cwd : String
  dirs : List String
  files : List String
deriving DecidableEq

/-- Applies one planned action to the world: a download creates its
output file, an extraction removes the archive (its extracted contents
are tracked by `existing` at the planning level), a skip does nothing. -/
def applyAction (w : World) (a : Action) : World :=
  match a with
  | Action.skip _ => w
  | Action.download _ out _ => { w with files := out :: w.files }
  | Action.extract p => { w with files := w.files.filter (fun q => !(q == p)) }

/-- Models `with DirectoryContext(newDir):` around `body`: the
constructor records os.getcwd() as old_dir, enter does os.chdir(new_dir),
and exit does os.chdir(old_dir) on every exit path — the with statement
runs exit whether or not the body raised, and the raised error (if any)
propagates. -/
def withDirectoryContext (w : World) (newDir : String)
    (body : World → World × Option PErr) : World × Option PErr :=
  let oldDir := w.cwd
  let w1 := { w with cwd := newDir }
  let r := body w1
  ({ r.fst with cwd := oldDir }, r.snd)

/-- Models `_process_dataset` with its effects: create the output
directory when absent, then, inside the directory context, plan against
the world and apply the planned actions; a raised planning error
propagates out of the context. -/
def processDatasetRun (w : World) (here outputDir : String) (d : Dataset) :
    World × Option PErr :=
  let w0 := if w.dirs.contains outputDir then w
    else { w with dirs := outputDir :: w.dirs }
  withDirectoryContext w0 outputDir (fun w1 =>
    let plan := processDataset w1.files here d
    (plan.fst.foldl applyAction w1, plan.snd))

theorem applyAction_cwd (w : World) (a : Action) :
    (applyAction w a).cwd = w.cwd := by
  cases a <;> rfl

/-- C9. After processing any dataset, the current working directory is
exactly what it was before the dataset was entered — also when the
processing ends in a raised error (the error, if any, is returned
unchanged alongside the restored state). -/
theorem processDatasetRun_restores_cwd (w : World) (here outputDir : String)
    (d : Dataset) :
    (processDatasetRun w here outputDir d).fst.cwd = w.cwd := by
  unfold processDatasetRun withDirectoryContext
  split <;> rfl

end DownloadSampleData
